import Mathlib

/-!
Verification development for the maze_shooter raycasting engine
(`src/main.cpp`).  The C++ source is shallowly embedded: continuous
quantities (`double`) become exact rationals `ℚ`, machine integers become
`ℤ`/`ℕ`, the IEEE special values produced by division by an exactly-zero
ray component are modelled by an extended-rational type `XQ` with
`inf`/`ninf`/`nan`, and the unbounded `while` loop of the DDA becomes a
fuel-indexed recursion returning `Option`.
-/

/-- The C/C++ `int(...)` cast on a rational: truncation toward zero. -/
def cint (q : ℚ) : ℤ := if q < 0 then ⌈q⌉ else ⌊q⌋

/-- One frame of held-movement integration for a single movement key, as in
`MazeShooter::handleEvents` (src/main.cpp:577-594).  `dx`/`dy` stand for the
per-frame displacement (`dirX*MOVE_SPEED`, `-planeX*MOVE_SPEED`, ...).
The two axis checks are sequential exactly as in the source: the x update
runs first, and the y check reads `posX` afterwards:

    if (worldMap[int(posX + dx)][int(posY)] == 0) posX += dx;
    if (worldMap[int(posX)][int(posY + dy)] == 0) posY += dy;
-/
def moveAxes (grid : ℤ → ℤ → ℤ) (posX posY dx dy : ℚ) : ℚ × ℚ :=
  let posX1 := if grid (cint (posX + dx)) (cint posY) = 0 then posX + dx else posX
  let posY1 := if grid (cint posX1) (cint (posY + dy)) = 0 then posY + dy else posY
  (posX1, posY1)

/-- Modelled from the spec's words (for comparison with `moveAxes`): the
variant in which the y-motion validity check uses the x coordinate from
before this frame's x update ("evaluating ... y-motion validity with the
old x (not the already-updated position)"). -/
def moveAxesOldX (grid : ℤ → ℤ → ℤ) (posX posY dx dy : ℚ) : ℚ × ℚ :=
  let posX1 := if grid (cint (posX + dx)) (cint posY) = 0 then posX + dx else posX
  let posY1 := if grid (cint posX) (cint (posY + dy)) = 0 then posY + dy else posY
  (posX1, posY1)

/-- A concrete grid refuting claim C1 as stated: the only wall tile is at
grid coordinates (1, 2). -/
def c1Grid (x y : ℤ) : ℤ := if x = 1 ∧ y = 2 then 1 else 0

/-! ## Extended rationals: the IEEE-754 values arising in the DDA setup

`renderGame` computes `deltaDistX = std::abs(1 / rayDirX)` with no zero
guard; in IEEE-754 double arithmetic `1/0.0 = +inf` and the subsequent
multiplications and comparisons follow the usual rules for infinities and
NaN.  `XQ` models exactly those: a finite exact rational, the two signed
infinities, and NaN.  No rounding is modelled; every claim settled through
`XQ` only concerns ray components that are exactly zero, where the IEEE
result is exact. -/
inductive XQ where
  | fin (q : ℚ)
  | inf
  | ninf
  | nan
deriving DecidableEq, Repr

/-- `std::abs(1 / x)`: absolute reciprocal, `+inf` at exactly zero. -/
def absRecip (x : ℚ) : XQ := if x = 0 then XQ.inf else XQ.fin |1 / x|

/-- Product of a finite double with an extended double (IEEE rules:
`0 * inf = NaN`, positive scalings preserve the infinity). -/
def XQ.smul (q : ℚ) : XQ → XQ
  | fin r => fin (q * r)
  | inf => if 0 < q then inf else if q < 0 then ninf else nan
  | ninf => if 0 < q then ninf else if q < 0 then inf else nan
  | nan => nan

/-- IEEE addition on extended doubles (`inf + ninf = NaN`). -/
def XQ.add : XQ → XQ → XQ
  | fin a, fin b => fin (a + b)
  | fin _, inf => inf
  | fin _, ninf => ninf
  | inf, fin _ => inf
  | inf, inf => inf
  | inf, ninf => nan
  | ninf, fin _ => ninf
  | ninf, inf => nan
  | ninf, ninf => ninf
  | nan, _ => nan
  | _, nan => nan

/-- IEEE `<` on extended doubles: any comparison with NaN is false. -/
def XQ.blt : XQ → XQ → Bool
  | nan, _ => false
  | _, nan => false
  | fin a, fin b => decide (a < b)
  | fin _, inf => true
  | fin _, ninf => false
  | inf, _ => false
  | ninf, inf => true
  | ninf, fin _ => true
  | ninf, ninf => false

/-- IEEE division of a finite double by a finite double (`q/0` is a signed
infinity, `0/0` is NaN). -/
def xdiv (q r : ℚ) : XQ :=
  if r = 0 then (if q = 0 then XQ.nan else if 0 < q then XQ.inf else XQ.ninf)
  else XQ.fin (q / r)

/-! ## The per-column DDA of `MazeShooter::renderGame` (src/main.cpp:757-809) -/

/-- The mutable locals of the raycasting loop for one screen column. -/
structure DDAState where
  mapX : ℤ
  mapY : ℤ
  sideDistX : XQ
  sideDistY : XQ
  deltaDistX : XQ
  deltaDistY : XQ
  stepX : ℤ
  stepY : ℤ
  side : ℕ
deriving DecidableEq, Repr

/-- DDA setup (src/main.cpp:762-786).  `side` is uninitialized in the
source until the first loop iteration; it is seeded with 0 here and is
always overwritten before use, since the loop body runs at least once. -/
def ddaInit (posX posY rayDirX rayDirY : ℚ) : DDAState :=
  let mapX : ℤ := cint posX
  let mapY : ℤ := cint posY
  let deltaDistX := absRecip rayDirX
  let deltaDistY := absRecip rayDirY
  let stepX : ℤ := if rayDirX < 0 then -1 else 1
  let sideDistX := if rayDirX < 0 then XQ.smul (posX - (mapX : ℚ)) deltaDistX
                   else XQ.smul ((mapX : ℚ) + 1 - posX) deltaDistX
  let stepY : ℤ := if rayDirY < 0 then -1 else 1
  let sideDistY := if rayDirY < 0 then XQ.smul (posY - (mapY : ℚ)) deltaDistY
                   else XQ.smul ((mapY : ℚ) + 1 - posY) deltaDistY
  ⟨mapX, mapY, sideDistX, sideDistY, deltaDistX, deltaDistY, stepX, stepY, 0⟩

/-- One iteration of the DDA `while` body (src/main.cpp:791-800). -/
def ddaStep (s : DDAState) : DDAState :=
  if XQ.blt s.sideDistX s.sideDistY then
    { s with sideDistX := XQ.add s.sideDistX s.deltaDistX,
             mapX := s.mapX + s.stepX, side := 0 }
  else
    { s with sideDistY := XQ.add s.sideDistY s.deltaDistY,
             mapY := s.mapY + s.stepY, side := 1 }

/-- The `while (hit == 0)` loop (src/main.cpp:791-803), fuel-indexed:
`none` means the loop has not hit a wall within `fuel` iterations. -/
def ddaRun (grid : ℤ → ℤ → ℤ) : ℕ → DDAState → Option DDAState
  | 0, _ => none
  | fuel + 1, s =>
      let s1 := ddaStep s
      if 0 < grid s1.mapX s1.mapY then some s1 else ddaRun grid fuel s1

/-- Full single-column ray cast (src/main.cpp:757-809): camera-space
offset, ray direction, DDA, and perpendicular wall distance.  Returns
`(mapX, mapY, side, perpWallDist)`.  `(1 - stepX) / 2` is an int division
in the source; for `stepX = ±1` it equals the exact rational division
used here (values 0 and 1). -/
def castRay (grid : ℤ → ℤ → ℤ) (posX posY dirX dirY planeX planeY : ℚ)
    (screenW x fuel : ℕ) : Option (ℤ × ℤ × ℕ × XQ) :=
  let cameraX : ℚ := 2 * (x : ℚ) / (screenW : ℚ) - 1
  let rayDirX := dirX + planeX * cameraX
  let rayDirY := dirY + planeY * cameraX
  match ddaRun grid fuel (ddaInit posX posY rayDirX rayDirY) with
  | none => none
  | some s =>
      let perp : XQ :=
        if s.side = 0 then xdiv ((s.mapX : ℚ) - posX + (1 - (s.stepX : ℚ)) / 2) rayDirX
        else xdiv ((s.mapY : ℚ) - posY + (1 - (s.stepY : ℚ)) / 2) rayDirY
      some (s.mapX, s.mapY, s.side, perp)

/-! ## Grids -/

/-- The 24×24 `worldMap` array (src/main.cpp:60-85), row index = x. -/
def worldMap : List (List ℤ) :=
  [[1,1,1,1,1,1,1,1,1,1,1,1,1,1,1,1,1,1,1,1,1,1,1,1],
   [1,0,0,0,0,0,0,0,0,0,0,0,0,0,0,0,0,0,0,0,0,0,0,1],
   [1,0,0,0,0,0,0,0,0,0,0,0,0,0,0,0,0,0,0,0,0,0,0,1],
   [1,0,0,0,0,0,0,0,0,0,0,0,0,0,0,0,0,0,0,0,0,0,0,1],
   [1,0,0,0,0,0,2,2,2,2,2,0,0,0,0,3,0,3,0,3,0,0,0,1],
   [1,0,0,0,0,0,2,0,0,0,2,0,0,0,0,0,0,0,0,0,0,0,0,1],
   [1,0,0,0,0,0,2,0,0,0,2,0,0,0,0,3,0,0,0,3,0,0,0,1],
   [1,0,0,0,0,0,2,0,0,0,2,0,0,0,0,0,0,0,0,0,0,0,0,1],
   [1,0,0,0,0,0,2,2,0,2,2,0,0,0,0,3,0,3,0,3,0,0,0,1],
   [1,0,0,0,0,0,0,0,0,0,0,0,0,0,0,0,0,0,0,0,0,0,0,1],
   [1,0,0,0,0,0,0,0,0,0,0,0,0,0,0,0,0,0,0,0,0,0,0,1],
   [1,0,0,0,0,0,0,0,0,0,0,0,0,0,0,0,0,0,0,0,0,0,0,1],
   [1,0,0,0,0,0,0,0,0,0,0,0,0,0,0,0,0,0,0,0,0,0,0,1],
   [1,0,0,0,0,0,0,0,0,0,0,0,0,0,0,0,0,0,0,0,0,0,0,1],
   [1,0,0,0,0,0,0,0,0,0,0,0,0,0,0,0,0,0,0,0,0,0,0,1],
   [1,0,0,0,0,0,0,0,0,0,0,0,0,0,0,0,0,0,0,0,0,0,0,1],
   [1,4,4,4,4,4,4,4,4,0,0,0,0,0,0,0,0,0,0,0,0,0,0,1],
   [1,4,0,4,0,0,0,0,4,0,0,0,0,0,0,0,0,0,0,0,0,0,0,1],
   [1,4,0,0,0,0,5,0,4,0,0,0,0,0,0,0,0,0,0,0,0,0,0,1],
   [1,4,0,4,0,0,0,0,4,0,0,0,0,0,0,0,0,0,0,0,0,0,0,1],
   [1,4,4,4,4,4,4,4,4,0,0,0,0,0,0,0,0,0,0,0,0,0,0,1],
   [1,0,0,0,0,0,0,0,0,0,0,0,0,0,0,0,0,0,0,0,0,0,0,1],
   [1,0,0,0,0,0,0,0,0,0,0,0,0,0,0,0,0,0,0,0,0,0,0,1],
   [1,1,1,1,1,1,1,1,1,1,1,1,1,1,1,1,1,1,1,1,1,1,1,1]]

/-- `worldMap[x][y]` as a total function (the C code only ever indexes it
in bounds; out of bounds reads 0 here, a value the proofs never rely on). -/
def wmap (x y : ℤ) : ℤ := (worldMap.getD x.toNat []).getD y.toNat 0

/-- The 3×3 one-room grid of the reference scenario: sealed walls of
value 1 around the single empty cell (1, 1). -/
def roomGrid3 (x y : ℤ) : ℤ :=
  if 0 ≤ x ∧ x < 3 ∧ 0 ≤ y ∧ y < 3 then (if x = 1 ∧ y = 1 then 0 else 1) else 0

/-- The sealed-border invariant of §3 of the spec, stated decidably over
the in-range border cells of a `W × H` grid. -/
def sealedBorder (grid : ℤ → ℤ → ℤ) (W H : ℕ) : Prop :=
  (∀ x : ℕ, x < W → 0 < grid (x : ℤ) 0 ∧ 0 < grid (x : ℤ) ((H : ℤ) - 1)) ∧
  (∀ y : ℕ, y < H → 0 < grid 0 (y : ℤ) ∧ 0 < grid ((W : ℤ) - 1) (y : ℤ))

instance (grid : ℤ → ℤ → ℤ) (W H : ℕ) : Decidable (sealedBorder grid W H) := by
  unfold sealedBorder; infer_instance

/-! ## Texture sampling: `MazeShooter::getTexturePixel` (src/main.cpp:394-403)

    texX &= (TEXTURE_WIDTH - 1);
    texY &= (TEXTURE_HEIGHT - 1);
    if (textureNum < 1 || textureNum >= NUM_TEXTURES) return 0xFFFF00FF;
    return texture[textureNum][TEXTURE_WIDTH * texY + texX];

C++ `&` on a (two's-complement) `int` is `Int.land`; `texture` is the
in-memory pixel store, abstracted as a function from texture number and
flat offset to a packed ARGB value. -/
def getTexturePixel (tex : ℕ → ℕ → ℕ) (textureNum texX texY : ℤ) : ℕ :=
  let tX := Int.land texX 63
  let tY := Int.land texY 63
  if textureNum < 1 ∨ 8 ≤ textureNum then 0xFFFF00FF
  else tex textureNum.toNat (64 * tY.toNat + tX.toNat)

/-! ## Jump physics (src/main.cpp:540-543 and 615-624)

State is `(cameraHeight, verticalVelocity, isJumping)`; the ground
reference height `GROUND_HEIGHT` is 0. -/

/-- The jump trigger of `handleGameEvents`: only when not already
airborne, set the upward impulse and mark airborne. -/
def jumpTrigger (impulse : ℚ) (s : ℚ × ℚ × Bool) : ℚ × ℚ × Bool :=
  if s.2.2 then s else (s.1, impulse, true)

/-- One per-frame integration step of the jump physics in `handleEvents`:
`cameraHeight += verticalVelocity; verticalVelocity -= GRAVITY;` then
clamp on reaching or crossing the ground. -/
def jumpStep (grav : ℚ) (s : ℚ × ℚ × Bool) : ℚ × ℚ × Bool :=
  if s.2.2 then
    let h := s.1 + s.2.1
    let v := s.2.1 - grav
    if h ≤ 0 then (0, 0, false) else (h, v, true)
  else s

/-! ## Rotation (src/main.cpp:597-612)

The source rotates by the fixed angle `±ROT_SPEED` with `cos`/`sin`;
each turn is determined by the pair `(c, s) = (cos θ, sin θ)`, a point of
the unit circle.  The update uses the pre-rotation `dirX` (`oldDirX`) and
`planeX` (`oldPlaneX`) exactly as the source does. -/

/-- Player orientation state: `((dirX, dirY), (planeX, planeY))`. -/
def rotatePlayer (c s : ℚ) (p : (ℚ × ℚ) × (ℚ × ℚ)) : (ℚ × ℚ) × (ℚ × ℚ) :=
  ((p.1.1 * c - p.1.2 * s, p.1.1 * s + p.1.2 * c),
   (p.2.1 * c - p.2.2 * s, p.2.1 * s + p.2.2 * c))

/-- A sequence of turn operations, each given by its `(cos, sin)` pair. -/
def rotateSeq (L : List (ℚ × ℚ)) (p : (ℚ × ℚ) × (ℚ × ℚ)) : (ℚ × ℚ) × (ℚ × ℚ) :=
  L.foldl (fun q cs => rotatePlayer cs.1 cs.2 q) p

/-- Dot product of two plane vectors. -/
def dot2 (a b : ℚ × ℚ) : ℚ := a.1 * b.1 + a.2 * b.2

/-- Cross product (z-component) of two plane vectors. -/
def cross2 (a b : ℚ × ℚ) : ℚ := a.1 * b.2 - a.2 * b.1

/-! ## Gun animation (src/main.cpp:495-527)

`animationTimer` and `lastAnimationTime` are `Uint32` millisecond ticks;
`currentTime - lastAnimationTime` is Uint32 wrap-around subtraction,
modelled as subtraction in `ℤ` reduced mod `2^32`. -/

/-- The gun animation fields of `MazeShooter`. -/
structure GunState where
  currentGunFrame : ℤ
  isShooting : Bool
  animationTimer : ℕ
  lastAnimationTime : ℕ
deriving DecidableEq, Repr

/-- The constructor-initializer values (src/main.cpp:145), with
`lastAnimationTime = SDL_GetTicks()` abstracted as a parameter. -/
def initGun (t0 : ℕ) : GunState := ⟨0, false, 0, t0⟩

/-- `MazeShooter::shootGun` (src/main.cpp:495-508); `now` is the
`SDL_GetTicks()` reading. -/
def shootGun (now : ℕ) (s : GunState) : GunState :=
  if s.isShooting then s
  else { s with isShooting := true, currentGunFrame := 1,
                animationTimer := 0, lastAnimationTime := now }

/-- `MazeShooter::updateGunAnimation` (src/main.cpp:510-527). -/
def updateGunAnimation (now : ℕ) (s : GunState) : GunState :=
  if s.isShooting = false then { s with currentGunFrame := 0 }
  else if 100 ≤ ((now : ℤ) - (s.lastAnimationTime : ℤ)) % 2 ^ 32 then
    if 4 ≤ s.currentGunFrame + 1 then
      { s with currentGunFrame := 0, isShooting := false, lastAnimationTime := now }
    else { s with currentGunFrame := s.currentGunFrame + 1, lastAnimationTime := now }
  else s

/-- The gun events that mutate the animation state. -/
inductive GunOp where
  | shoot (now : ℕ)
  | update (now : ℕ)

/-- Apply one gun event. -/
def gunStep (op : GunOp) (s : GunState) : GunState :=
  match op with
  | .shoot t => shootGun t s
  | .update t => updateGunAnimation t s

/-- Apply a sequence of gun events. -/
def runGun (ops : List GunOp) (s : GunState) : GunState :=
  ops.foldl (fun s op => gunStep op s) s

/-- The gun-frame invariant: the frame indexes the 4-element
`gunSprites` array in bounds, and a non-shooting state shows frame 0. -/
def GunInv (s : GunState) : Prop :=
  0 ≤ s.currentGunFrame ∧ s.currentGunFrame < 4 ∧
  (s.isShooting = false → s.currentGunFrame = 0)

/-! ## Claim theorems -/

/-- Claim C1, counterexample to the claim as stated.  At position
(1.99, 1.5) with displacement (0.02, 0.5) on `c1Grid`, the x move crosses
into tile x = 2; the code then applies the y move even though the tile at
the old pre-update x (tile (1, 2)) is a wall, because the y-motion check
reads the already-updated `posX`.  The code therefore differs from the
spec-worded `moveAxesOldX`. -/
theorem moveAxes_oldx_cex :
    (moveAxes c1Grid (199/100) (3/2) (1/50) (1/2)).2 = 3/2 + 1/2 ∧
    c1Grid (cint (199/100 : ℚ)) (cint (3/2 + 1/2 : ℚ)) = 1 ∧
    moveAxes c1Grid (199/100) (3/2) (1/50) (1/2) ≠
      moveAxesOldX c1Grid (199/100) (3/2) (1/50) (1/2) := by
  refine ⟨?_, ?_, ?_⟩ <;> with_unfolding_all decide

/-- Claim C1, amended: the motion integrator checks the axes sequentially
and independently; the x move is applied exactly when the tile at
(candidate x, current y) is non-wall, and the y move is applied exactly
when the tile at (current x — which includes this frame's x update, if it
was applied — candidate y) is non-wall.  In particular, with a wall
directly ahead on the x axis but the y axis open, a diagonal input moves
the player along y only (first conjunct), and symmetrically a blocked y
never prevents the open x move (second conjunct). -/
theorem moveAxes_axis_separated (grid : ℤ → ℤ → ℤ) (posX posY dx dy : ℚ) :
    (grid (cint (posX + dx)) (cint posY) ≠ 0 →
      moveAxes grid posX posY dx dy =
        (posX, if grid (cint posX) (cint (posY + dy)) = 0 then posY + dy else posY)) ∧
    (grid (cint (posX + dx)) (cint posY) = 0 →
      moveAxes grid posX posY dx dy =
        (posX + dx,
         if grid (cint (posX + dx)) (cint (posY + dy)) = 0 then posY + dy else posY)) := by
  constructor <;> intro h <;> simp [moveAxes, h]

/-- Witness for `moveAxes_axis_separated` at the concrete C1 input
(x axis open, y gated by the updated x). -/
theorem moveAxes_axis_separated_witness :
    moveAxes c1Grid (199/100) (3/2) (1/50) (1/2) =
      (199/100 + 1/50,
       if c1Grid (cint (199/100 + 1/50 : ℚ)) (cint (3/2 + 1/2 : ℚ)) = 0
       then 3/2 + 1/2 else (3/2 : ℚ)) :=
  (moveAxes_axis_separated c1Grid (199/100) (3/2) (1/50) (1/2)).2
    (by with_unfolding_all rfl)

/-- Claim C4: in the 3×3 sealed room with the player at (1.5, 1.5),
direction (1, 0) and camera plane (0, 0.66), the ray for the center
screen column (x = 400 of 800, camera offset 0) hits the wall tile at
grid x = 2, y = 1 with side = 0 (x-axis step) and perpendicular wall
distance exactly 1/2. -/
theorem castRay_center_room3 :
    castRay roomGrid3 (3/2) (3/2) 1 0 0 (33/50) 800 400 6 =
      some (2, 1, 0, XQ.fin (1/2)) := by
  with_unfolding_all rfl

/-- Claim C7: for a texture index that is 0, negative, or at least
`NUM_TEXTURES` = 8, `getTexturePixel` returns the bright-magenta sentinel
`0xFFFF00FF` for every texture store and all pixel coordinates; the
result does not depend on the texture memory at all, so no out-of-bounds
access can occur. -/
theorem getTexturePixel_sentinel (tex : ℕ → ℕ → ℕ) (textureNum texX texY : ℤ)
    (h : textureNum < 1 ∨ 8 ≤ textureNum) :
    getTexturePixel tex textureNum texX texY = 0xFFFF00FF := by
  simp only [getTexturePixel, if_pos h]

/-- Witness for `getTexturePixel_sentinel`: requesting texture index 99
returns the sentinel. -/
theorem getTexturePixel_sentinel_witness :
    getTexturePixel (fun _ _ => 0) 99 7 11 = 0xFFFF00FF :=
  getTexturePixel_sentinel (fun _ _ => 0) 99 7 11 (Or.inr (by decide))

/-- Claim C9: triggering fire while a firing animation is in progress
(`isShooting = true`) is a no-op: `shootGun` returns the state unchanged,
so in particular the gun animation frame and both timer fields keep their
values. -/
theorem shootGun_noop_while_shooting (now : ℕ) (s : GunState)
    (h : s.isShooting = true) : shootGun now s = s := by
  simp [shootGun, h]

/-- Witness for `shootGun_noop_while_shooting` on a concrete mid-fire
state. -/
theorem shootGun_noop_while_shooting_witness :
    shootGun 700 ⟨2, true, 0, 650⟩ = ⟨2, true, 0, 650⟩ :=
  shootGun_noop_while_shooting 700 ⟨2, true, 0, 650⟩ rfl

/-! ## Rotation invariants (C6) -/

theorem rotatePlayer_dot_dir (c s : ℚ) (h : c ^ 2 + s ^ 2 = 1) (p : (ℚ × ℚ) × (ℚ × ℚ)) :
    dot2 (rotatePlayer c s p).1 (rotatePlayer c s p).1 = dot2 p.1 p.1 := by
  simp only [rotatePlayer, dot2]
  linear_combination (p.1.1 * p.1.1 + p.1.2 * p.1.2) * h

theorem rotatePlayer_dot_plane (c s : ℚ) (h : c ^ 2 + s ^ 2 = 1) (p : (ℚ × ℚ) × (ℚ × ℚ)) :
    dot2 (rotatePlayer c s p).2 (rotatePlayer c s p).2 = dot2 p.2 p.2 := by
  simp only [rotatePlayer, dot2]
  linear_combination (p.2.1 * p.2.1 + p.2.2 * p.2.2) * h

theorem rotatePlayer_dot_mixed (c s : ℚ) (h : c ^ 2 + s ^ 2 = 1) (p : (ℚ × ℚ) × (ℚ × ℚ)) :
    dot2 (rotatePlayer c s p).1 (rotatePlayer c s p).2 = dot2 p.1 p.2 := by
  simp only [rotatePlayer, dot2]
  linear_combination (p.1.1 * p.2.1 + p.1.2 * p.2.2) * h

theorem rotatePlayer_cross (c s : ℚ) (h : c ^ 2 + s ^ 2 = 1) (p : (ℚ × ℚ) × (ℚ × ℚ)) :
    cross2 (rotatePlayer c s p).1 (rotatePlayer c s p).2 = cross2 p.1 p.2 := by
  simp only [rotatePlayer, cross2]
  linear_combination (p.1.1 * p.2.2 - p.1.2 * p.2.1) * h

/-- Claim C6: any sequence of turn operations — each a rotation by a unit
pair `(cos θ, sin θ)` applied to direction and plane with their
pre-rotation components, as in src/main.cpp:597-612 — exactly preserves
the squared magnitudes of the direction and plane vectors and both the
dot and cross products between them, hence the angle between them
(perpendicularity in particular).  In the exact-arithmetic model the
preservation is exact, which is within any floating tolerance. -/
theorem rotation_preserves_geometry (L : List (ℚ × ℚ)) (p : (ℚ × ℚ) × (ℚ × ℚ))
    (h : ∀ cs ∈ L, cs.1 ^ 2 + cs.2 ^ 2 = 1) :
    dot2 (rotateSeq L p).1 (rotateSeq L p).1 = dot2 p.1 p.1 ∧
    dot2 (rotateSeq L p).2 (rotateSeq L p).2 = dot2 p.2 p.2 ∧
    dot2 (rotateSeq L p).1 (rotateSeq L p).2 = dot2 p.1 p.2 ∧
    cross2 (rotateSeq L p).1 (rotateSeq L p).2 = cross2 p.1 p.2 := by
  induction L generalizing p with
  | nil => exact ⟨rfl, rfl, rfl, rfl⟩
  | cons cs L ih =>
      have hcs := h cs (List.mem_cons_self cs L)
      have hL : ∀ x ∈ L, x.1 ^ 2 + x.2 ^ 2 = 1 := fun x hx => h x (List.mem_cons_of_mem _ hx)
      obtain ⟨i1, i2, i3, i4⟩ := ih (rotatePlayer cs.1 cs.2 p) hL
      have e : rotateSeq (cs :: L) p = rotateSeq L (rotatePlayer cs.1 cs.2 p) := rfl
      rw [e, i1, i2, i3, i4]
      exact ⟨rotatePlayer_dot_dir cs.1 cs.2 hcs p, rotatePlayer_dot_plane cs.1 cs.2 hcs p,
             rotatePlayer_dot_mixed cs.1 cs.2 hcs p, rotatePlayer_cross cs.1 cs.2 hcs p⟩

/-- Witness for `rotation_preserves_geometry`: two turns by the unit
pairs (3/5, 4/5) and (5/13, 12/13) from the initial pose of
`startNewGame` (direction (-1, 0), plane (0, 0.66)). -/
theorem rotation_preserves_geometry_witness :
    dot2 (rotateSeq [(3/5, 4/5), (5/13, 12/13)] ((-1, 0), (0, 33/50))).1
         (rotateSeq [(3/5, 4/5), (5/13, 12/13)] ((-1, 0), (0, 33/50))).1 =
      dot2 (-1, 0) (-1, 0) ∧
    dot2 (rotateSeq [(3/5, 4/5), (5/13, 12/13)] ((-1, 0), (0, 33/50))).2
         (rotateSeq [(3/5, 4/5), (5/13, 12/13)] ((-1, 0), (0, 33/50))).2 =
      dot2 (0, 33/50) (0, 33/50) ∧
    dot2 (rotateSeq [(3/5, 4/5), (5/13, 12/13)] ((-1, 0), (0, 33/50))).1
         (rotateSeq [(3/5, 4/5), (5/13, 12/13)] ((-1, 0), (0, 33/50))).2 =
      dot2 (-1, 0) (0, 33/50) ∧
    cross2 (rotateSeq [(3/5, 4/5), (5/13, 12/13)] ((-1, 0), (0, 33/50))).1
           (rotateSeq [(3/5, 4/5), (5/13, 12/13)] ((-1, 0), (0, 33/50))).2 =
      cross2 (-1, 0) (0, 33/50) :=
  rotation_preserves_geometry [(3/5, 4/5), (5/13, 12/13)] ((-1, 0), (0, 33/50))
    (by intro cs hcs; fin_cases hcs <;> norm_num)

/-! ## Bitwise masking (C8) -/

theorem testBit_63 (i : ℕ) : Nat.testBit 63 i = decide (i < 6) := by
  rcases Nat.lt_or_ge i 6 with h | h
  · interval_cases i <;> rfl
  · have h63 : (63 : ℕ) < 2 ^ i :=
      lt_of_lt_of_le (by norm_num) (Nat.pow_le_pow_right (by norm_num) h)
    rw [Nat.testBit_eq_false_of_lt h63, eq_comm, decide_eq_false_iff_not]
    omega

theorem nat_and_63 (a : ℕ) : a &&& 63 = a % 64 := by
  apply Nat.eq_of_testBit_eq
  intro i
  rw [Nat.testBit_and, testBit_63, show (64 : ℕ) = 2 ^ 6 by norm_num,
      Nat.testBit_mod_two_pow, Bool.and_comm]

theorem xor63_eq_sub : ∀ r : Fin 64, 63 ^^^ (r : ℕ) = 63 - (r : ℕ) := by decide

theorem ldiff_63 (a : ℕ) : Nat.ldiff 63 a = 63 - a % 64 := by
  have h1 : Nat.ldiff 63 a = 63 ^^^ (a % 64) := by
    apply Nat.eq_of_testBit_eq
    intro i
    rw [Nat.testBit_ldiff, Nat.testBit_xor, testBit_63, show (64 : ℕ) = 2 ^ 6 by norm_num,
        Nat.testBit_mod_two_pow]
    by_cases h : i < 6 <;> simp [h]
  rw [h1, xor63_eq_sub ⟨a % 64, Nat.mod_lt _ (by norm_num)⟩]

theorem int_land_63 (x : ℤ) : Int.land x 63 = x % 64 := by
  cases x with
  | ofNat a =>
      have e : Int.land (Int.ofNat a) 63 = Int.ofNat (a &&& 63) := rfl
      rw [e, nat_and_63]
      simp only [Int.ofNat_eq_coe]
      omega
  | negSucc a =>
      have e : Int.land (Int.negSucc a) 63 = Int.ofNat (Nat.ldiff 63 a) := rfl
      rw [e, ldiff_63, Int.negSucc_eq]
      simp only [Int.ofNat_eq_coe]
      omega

/-- Claim C8: texture sampling is periodic in both pixel coordinates with
period `TEXTURE_WIDTH = TEXTURE_HEIGHT = 64`: shifting `texX` or `texY`
by any integer multiple of 64 leaves the sampled pixel unchanged, for
every texture store and every texture index (the coordinates are wrapped
by the power-of-two bitmask `& 63`, which equals reduction mod 64). -/
theorem getTexturePixel_periodic (tex : ℕ → ℕ → ℕ) (textureNum texX texY N M : ℤ) :
    getTexturePixel tex textureNum (texX + N * 64) (texY + M * 64) =
      getTexturePixel tex textureNum texX texY := by
  unfold getTexturePixel
  rw [int_land_63, int_land_63, int_land_63, int_land_63,
      Int.add_mul_emod_self, Int.add_mul_emod_self]

/-! ## Gun animation invariant (C10) -/

theorem shootGun_inv (now : ℕ) (s : GunState) (h : GunInv s) : GunInv (shootGun now s) := by
  unfold GunInv shootGun
  split_ifs with hs
  · exact h
  · refine ⟨by simp, by simp, ?_⟩
    intro hfalse
    simp at hfalse

theorem updateGunAnimation_inv (now : ℕ) (s : GunState) (h : GunInv s) :
    GunInv (updateGunAnimation now s) := by
  obtain ⟨h1, h2, h3⟩ := h
  unfold GunInv updateGunAnimation
  split_ifs with hs ht hf <;> simp_all <;> omega

theorem updateGunAnimation_grounded (now : ℕ) (s : GunState)
    (h : (updateGunAnimation now s).isShooting = false) :
    (updateGunAnimation now s).currentGunFrame = 0 := by
  unfold updateGunAnimation at h ⊢
  split_ifs at h ⊢ with hs ht hf <;> simp_all

theorem runGun_inv (ops : List GunOp) (s : GunState) (h : GunInv s) : GunInv (runGun ops s) := by
  induction ops generalizing s with
  | nil => exact h
  | cons op ops ih =>
      have e : runGun (op :: ops) s = runGun ops (gunStep op s) := rfl
      rw [e]
      apply ih
      cases op with
      | shoot t => exact shootGun_inv t s h
      | update t => exact updateGunAnimation_inv t s h

/-- Claim C10: in every state reachable from the initial gun state by any
sequence of `shootGun`/`updateGunAnimation` calls, `currentGunFrame` lies
in `[0, GUN_FRAMES) = [0, 4)` — so indexing `gunSprites` with it is in
bounds — and after any `updateGunAnimation` call whose resulting state is
not shooting, the frame is 0. -/
theorem gun_frame_invariant (t0 now : ℕ) (ops : List GunOp) :
    GunInv (runGun ops (initGun t0)) ∧
    ((updateGunAnimation now (runGun ops (initGun t0))).isShooting = false →
      (updateGunAnimation now (runGun ops (initGun t0))).currentGunFrame = 0) :=
  ⟨runGun_inv ops (initGun t0) (by norm_num [GunInv, initGun]),
   updateGunAnimation_grounded now (runGun ops (initGun t0))⟩

/-- Witness for `gun_frame_invariant`: fire at t=5, then three animation
updates 150 ms apart, then a further update; the run ends grounded at
frame 0. -/
theorem gun_frame_invariant_witness :
    GunInv (runGun [GunOp.shoot 5, GunOp.update 200, GunOp.update 350, GunOp.update 500]
      (initGun 0)) ∧
    ((updateGunAnimation 700 (runGun [GunOp.shoot 5, GunOp.update 200, GunOp.update 350,
        GunOp.update 500] (initGun 0))).isShooting = false →
      (updateGunAnimation 700 (runGun [GunOp.shoot 5, GunOp.update 200, GunOp.update 350,
        GunOp.update 500] (initGun 0))).currentGunFrame = 0) :=
  gun_frame_invariant 0 700 [GunOp.shoot 5, GunOp.update 200, GunOp.update 350, GunOp.update 500]

/-! ## Jump integrator (C5) -/

theorem jumpStep_grounded (grav h v : ℚ) : jumpStep grav (h, v, false) = (h, v, false) := by
  simp [jumpStep]

theorem jumpStep_iterate_grounded (grav : ℚ) (m : ℕ) :
    (jumpStep grav)^[m] (0, 0, false) = (0, 0, false) := by
  induction m with
  | zero => rfl
  | succ n ih => rw [Function.iterate_succ_apply, jumpStep_grounded, ih]

theorem jump_lands (J G : ℚ) (hJ : 0 < J) (hG : 0 < G) :
    ∃ n : ℕ, (jumpStep G)^[n] (0, J, true) = (0, 0, false) := by
  by_contra hno
  push_neg at hno
  have flag : ∀ n : ℕ, ((jumpStep G)^[n] (0, J, true)).2.2 = true := by
    intro n
    induction n with
    | zero => rfl
    | succ k ih =>
        rw [Function.iterate_succ_apply']
        by_cases hc : ((jumpStep G)^[k] (0, J, true)).1 + ((jumpStep G)^[k] (0, J, true)).2.1 ≤ 0
        · exfalso
          apply hno (k + 1)
          rw [Function.iterate_succ_apply']
          simp [jumpStep, ih, hc]
        · simp [jumpStep, ih, hc]
  have vel : ∀ n : ℕ, ((jumpStep G)^[n] (0, J, true)).2.1 = J - (n : ℚ) * G := by
    intro n
    induction n with
    | zero => simp
    | succ k ih =>
        rw [Function.iterate_succ_apply']
        have hf := flag k
        by_cases hc : ((jumpStep G)^[k] (0, J, true)).1 + ((jumpStep G)^[k] (0, J, true)).2.1 ≤ 0
        · exfalso
          apply hno (k + 1)
          rw [Function.iterate_succ_apply']
          simp [jumpStep, hf, hc]
        · simp only [jumpStep, hf, if_true, hc, if_false]
          rw [ih]
          push_cast
          ring
  have ht : ∀ n : ℕ, ((jumpStep G)^[n] (0, J, true)).1 =
      (n : ℚ) * J - G * ((n : ℚ) * ((n : ℚ) - 1)) / 2 := by
    intro n
    induction n with
    | zero => simp
    | succ k ih =>
        rw [Function.iterate_succ_apply']
        have hf := flag k
        by_cases hc : ((jumpStep G)^[k] (0, J, true)).1 + ((jumpStep G)^[k] (0, J, true)).2.1 ≤ 0
        · exfalso
          apply hno (k + 1)
          rw [Function.iterate_succ_apply']
          simp [jumpStep, hf, hc]
        · simp only [jumpStep, hf, if_true, hc, if_false]
          rw [ih, vel k]
          push_cast
          ring
  have hpos : ∀ k : ℕ, 0 < ((jumpStep G)^[k + 1] (0, J, true)).1 := by
    intro k
    rw [Function.iterate_succ_apply']
    have hf := flag k
    by_cases hc : ((jumpStep G)^[k] (0, J, true)).1 + ((jumpStep G)^[k] (0, J, true)).2.1 ≤ 0
    · exfalso
      apply hno (k + 1)
      rw [Function.iterate_succ_apply']
      simp [jumpStep, hf, hc]
    · simp only [jumpStep, hf, if_true, hc, if_false]
      exact lt_of_not_le (fun hle => hc (by linarith))
  obtain ⟨c, hc1, hcq⟩ : ∃ c : ℤ, 1 ≤ c ∧ 2 * J / G ≤ (c : ℚ) :=
    ⟨max 1 ⌈2 * J / G⌉, le_max_left _ _,
     le_trans (Int.le_ceil _) (by exact_mod_cast le_max_right _ _)⟩
  obtain ⟨N, hNc⟩ : ∃ N : ℕ, (N : ℤ) = c := ⟨c.toNat, Int.toNat_of_nonneg (by omega)⟩
  have hNq : 2 * J / G ≤ (N : ℚ) := by
    have : ((N : ℤ) : ℚ) = (c : ℚ) := by exact_mod_cast congrArg (Int.cast : ℤ → ℚ) hNc
    push_cast at this
    rw [this]
    exact hcq
  have h2J : 2 * J ≤ (N : ℚ) * G := (div_le_iff₀ hG).1 hNq
  have hN0 : (0 : ℚ) ≤ (N : ℚ) := Nat.cast_nonneg N
  have hcontra := hpos N
  rw [ht (N + 1)] at hcontra
  push_cast at hcontra
  nlinarith [mul_nonneg (by linarith : (0:ℚ) ≤ (N : ℚ) + 1)
    (by linarith : (0:ℚ) ≤ (N : ℚ) * G - 2 * J)]

/-- Claim C5: for any positive jump impulse and positive gravity, the
jump integrator of `handleEvents` (trigger: set upward velocity, mark
airborne; per frame: `cameraHeight += verticalVelocity;
verticalVelocity -= GRAVITY;` clamp on reaching or crossing the ground)
returns the player to exactly the ground height 0 with exactly zero
vertical velocity after the full arc, and from then on — and from any
grounded state — further integration steps leave `cameraHeight` and
`verticalVelocity` unchanged. -/
theorem jump_full_arc (J G : ℚ) (hJ : 0 < J) (hG : 0 < G) :
    (∃ n : ℕ, ∀ m : ℕ, n ≤ m →
        (jumpStep G)^[m] (jumpTrigger J (0, 0, false)) = (0, 0, false)) ∧
    (∀ h v : ℚ, jumpStep G (h, v, false) = (h, v, false)) := by
  constructor
  · obtain ⟨n, hn⟩ := jump_lands J G hJ hG
    refine ⟨n, fun m hm => ?_⟩
    have e : jumpTrigger J ((0 : ℚ), (0 : ℚ), false) = ((0 : ℚ), J, true) := by
      simp [jumpTrigger]
    rw [e, show m = (m - n) + n by omega, Function.iterate_add_apply, hn,
        jumpStep_iterate_grounded]
  · intro h v
    exact jumpStep_grounded G h v

/-- Witness for `jump_full_arc` at the source constants
`JUMP_SPEED = 0.15` and `GRAVITY = 0.01`. -/
theorem jump_full_arc_witness :
    (∃ n : ℕ, ∀ m : ℕ, n ≤ m →
        (jumpStep (1/100))^[m] (jumpTrigger (3/20) (0, 0, false)) = (0, 0, false)) ∧
    (∀ h v : ℚ, jumpStep (1/100) (h, v, false) = (h, v, false)) :=
  jump_full_arc (3/20) (1/100) (by norm_num) (by norm_num)

/-! ## DDA invariants and termination (C2, C3) -/

theorem cint_eq_floor {q : ℚ} (h : 0 ≤ q) : cint q = ⌊q⌋ := by
  unfold cint
  rw [if_neg (not_lt.2 h)]

theorem sealed_left {g : ℤ → ℤ → ℤ} {W H : ℕ} (hsb : sealedBorder g W H) {y : ℤ}
    (h0 : 0 ≤ y) (hH : y < (H : ℤ)) : 0 < g 0 y := by
  have h := (hsb.2 y.toNat (by omega)).1
  rwa [Int.toNat_of_nonneg h0] at h

theorem sealed_right {g : ℤ → ℤ → ℤ} {W H : ℕ} (hsb : sealedBorder g W H) {y : ℤ}
    (h0 : 0 ≤ y) (hH : y < (H : ℤ)) : 0 < g ((W : ℤ) - 1) y := by
  have h := (hsb.2 y.toNat (by omega)).2
  rwa [Int.toNat_of_nonneg h0] at h

theorem sealed_top {g : ℤ → ℤ → ℤ} {W H : ℕ} (hsb : sealedBorder g W H) {x : ℤ}
    (h0 : 0 ≤ x) (hW : x < (W : ℤ)) : 0 < g x 0 := by
  have h := (hsb.1 x.toNat (by omega)).1
  rwa [Int.toNat_of_nonneg h0] at h

theorem sealed_bot {g : ℤ → ℤ → ℤ} {W H : ℕ} (hsb : sealedBorder g W H) {x : ℤ}
    (h0 : 0 ≤ x) (hW : x < (W : ℤ)) : 0 < g x ((H : ℤ) - 1) := by
  have h := (hsb.1 x.toNat (by omega)).2
  rwa [Int.toNat_of_nonneg h0] at h

/-- While the DDA walks, the current tile stays strictly inside the
sealed border and the step directions are ±1. -/
def ddaInv (W H : ℕ) (s : DDAState) : Prop :=
  1 ≤ s.mapX ∧ s.mapX ≤ (W : ℤ) - 2 ∧ 1 ≤ s.mapY ∧ s.mapY ≤ (H : ℤ) - 2 ∧
  (s.stepX = 1 ∨ s.stepX = -1) ∧ (s.stepY = 1 ∨ s.stepY = -1)

/-- Tiles remaining before each axis reaches its border column/row. -/
def ddaMeasure (W H : ℕ) (s : DDAState) : ℤ :=
  (if s.stepX = 1 then (W : ℤ) - 1 - s.mapX else s.mapX) +
  (if s.stepY = 1 then (H : ℤ) - 1 - s.mapY else s.mapY)

theorem ddaStep_fields (s : DDAState) :
    (ddaStep s).stepX = s.stepX ∧ (ddaStep s).stepY = s.stepY ∧
    (((ddaStep s).mapX = s.mapX + s.stepX ∧ (ddaStep s).mapY = s.mapY ∧ (ddaStep s).side = 0) ∨
     ((ddaStep s).mapX = s.mapX ∧ (ddaStep s).mapY = s.mapY + s.stepY ∧ (ddaStep s).side = 1)) := by
  unfold ddaStep
  split_ifs <;> simp

theorem ddaRun_total (g : ℤ → ℤ → ℤ) (W H : ℕ) (hsb : sealedBorder g W H) :
    ∀ (fuel : ℕ) (s : DDAState), ddaInv W H s → ddaMeasure W H s < (fuel : ℤ) →
      ∃ t, ddaRun g fuel s = some t := by
  intro fuel
  induction fuel with
  | zero =>
      intro s hInv hM
      exfalso
      obtain ⟨h1, h2, h3, h4, h5, h6⟩ := hInv
      unfold ddaMeasure at hM
      split_ifs at hM <;> omega
  | succ n ih =>
      intro s hInv hM
      obtain ⟨h1, h2, h3, h4, h5, h6⟩ := hInv
      obtain ⟨e1, e2, hcase⟩ := ddaStep_fields s
      by_cases hhit : 0 < g (ddaStep s).mapX (ddaStep s).mapY
      · exact ⟨ddaStep s, by simp only [ddaRun]; rw [if_pos hhit]⟩
      · have hx0 : 0 ≤ (ddaStep s).mapX ∧ (ddaStep s).mapX ≤ (W : ℤ) - 1 ∧
            0 ≤ (ddaStep s).mapY ∧ (ddaStep s).mapY ≤ (H : ℤ) - 1 := by
          rcases hcase with ⟨hx, hy, _⟩ | ⟨hx, hy, _⟩ <;> rw [hx, hy] <;> omega
        obtain ⟨hb1, hb2, hb3, hb4⟩ := hx0
        have hn1 : (ddaStep s).mapX ≠ 0 := by
          intro h0
          apply hhit
          rw [h0]
          exact sealed_left hsb hb3 (by omega)
        have hn2 : (ddaStep s).mapX ≠ (W : ℤ) - 1 := by
          intro h0
          apply hhit
          rw [h0]
          exact sealed_right hsb hb3 (by omega)
        have hn3 : (ddaStep s).mapY ≠ 0 := by
          intro h0
          apply hhit
          rw [h0]
          exact sealed_top hsb hb1 (by omega)
        have hn4 : (ddaStep s).mapY ≠ (H : ℤ) - 1 := by
          intro h0
          apply hhit
          rw [h0]
          exact sealed_bot hsb hb1 (by omega)
        have hdec : ddaMeasure W H (ddaStep s) = ddaMeasure W H s - 1 := by
          unfold ddaMeasure
          rw [e1, e2]
          rcases hcase with ⟨hx, hy, _⟩ | ⟨hx, hy, _⟩ <;> rw [hx, hy] <;> split_ifs <;> omega
        obtain ⟨t, htt⟩ := ih (ddaStep s)
          ⟨by omega, by omega, by omega, by omega, by rw [e1]; exact h5, by rw [e2]; exact h6⟩
          (by rw [hdec]; omega)
        exact ⟨t, by simp only [ddaRun]; rw [if_neg hhit]; exact htt⟩

theorem ddaMeasure_lt (W H : ℕ) (s : DDAState) (hInv : ddaInv W H s) :
    ddaMeasure W H s < (W : ℤ) + (H : ℤ) := by
  obtain ⟨h1, h2, h3, h4, h5, h6⟩ := hInv
  unfold ddaMeasure
  split_ifs <;> omega

theorem ddaInit_mapX (posX posY rdX rdY : ℚ) :
    (ddaInit posX posY rdX rdY).mapX = cint posX := rfl

theorem ddaInit_mapY (posX posY rdX rdY : ℚ) :
    (ddaInit posX posY rdX rdY).mapY = cint posY := rfl

theorem ddaInit_stepX (posX posY rdX rdY : ℚ) :
    (ddaInit posX posY rdX rdY).stepX = if rdX < 0 then -1 else 1 := rfl

theorem ddaInit_stepY (posX posY rdX rdY : ℚ) :
    (ddaInit posX posY rdX rdY).stepY = if rdY < 0 then -1 else 1 := rfl

theorem ddaInit_deltaDistX (posX posY rdX rdY : ℚ) :
    (ddaInit posX posY rdX rdY).deltaDistX = absRecip rdX := rfl

theorem ddaInit_deltaDistY (posX posY rdX rdY : ℚ) :
    (ddaInit posX posY rdX rdY).deltaDistY = absRecip rdY := rfl

theorem ddaInit_sideDistX (posX posY rdX rdY : ℚ) :
    (ddaInit posX posY rdX rdY).sideDistX =
      if rdX < 0 then XQ.smul (posX - (cint posX : ℚ)) (absRecip rdX)
      else XQ.smul ((cint posX : ℚ) + 1 - posX) (absRecip rdX) := rfl

theorem ddaInit_sideDistY (posX posY rdX rdY : ℚ) :
    (ddaInit posX posY rdX rdY).sideDistY =
      if rdY < 0 then XQ.smul (posY - (cint posY : ℚ)) (absRecip rdY)
      else XQ.smul ((cint posY : ℚ) + 1 - posY) (absRecip rdY) := rfl

theorem ddaInit_inv (g : ℤ → ℤ → ℤ) (W H : ℕ) (hsb : sealedBorder g W H)
    (posX posY rdX rdY : ℚ)
    (hx0 : 0 ≤ posX) (hxW : posX < (W : ℚ)) (hy0 : 0 ≤ posY) (hyH : posY < (H : ℚ))
    (hopen : g (cint posX) (cint posY) = 0) :
    ddaInv W H (ddaInit posX posY rdX rdY) := by
  have hfx : cint posX = ⌊posX⌋ := cint_eq_floor hx0
  have hfy : cint posY = ⌊posY⌋ := cint_eq_floor hy0
  have hx1 : 0 ≤ cint posX := by rw [hfx]; exact Int.floor_nonneg.2 hx0
  have hx2 : cint posX < (W : ℤ) := by rw [hfx, Int.floor_lt]; exact_mod_cast hxW
  have hy1 : 0 ≤ cint posY := by rw [hfy]; exact Int.floor_nonneg.2 hy0
  have hy2 : cint posY < (H : ℤ) := by rw [hfy, Int.floor_lt]; exact_mod_cast hyH
  have hxl : cint posX ≠ 0 := by
    intro h
    rw [h] at hopen
    have := sealed_left hsb hy1 hy2
    omega
  have hxr : cint posX ≠ (W : ℤ) - 1 := by
    intro h
    rw [h] at hopen
    have := sealed_right hsb hy1 hy2
    omega
  have hyt : cint posY ≠ 0 := by
    intro h
    rw [h] at hopen
    have := sealed_top hsb hx1 hx2
    omega
  have hyb : cint posY ≠ (H : ℤ) - 1 := by
    intro h
    rw [h] at hopen
    have := sealed_bot hsb hx1 hx2
    omega
  refine ⟨?_, ?_, ?_, ?_, ?_, ?_⟩
  · rw [ddaInit_mapX]; omega
  · rw [ddaInit_mapX]; omega
  · rw [ddaInit_mapY]; omega
  · rw [ddaInit_mapY]; omega
  · rw [ddaInit_stepX]; split_ifs <;> simp
  · rw [ddaInit_stepY]; split_ifs <;> simp

/-- Shared helper: from any in-bounds start on an empty tile of a
sealed-border grid, the DDA loop hits a wall within `W + H` iterations. -/
theorem ddaInit_terminates (g : ℤ → ℤ → ℤ) (W H : ℕ) (hsb : sealedBorder g W H)
    (posX posY rdX rdY : ℚ)
    (hx0 : 0 ≤ posX) (hxW : posX < (W : ℚ)) (hy0 : 0 ≤ posY) (hyH : posY < (H : ℚ))
    (hopen : g (cint posX) (cint posY) = 0) :
    ∃ t, ddaRun g (W + H) (ddaInit posX posY rdX rdY) = some t := by
  have hInv := ddaInit_inv g W H hsb posX posY rdX rdY hx0 hxW hy0 hyH hopen
  apply ddaRun_total g W H hsb (W + H) _ hInv
  have := ddaMeasure_lt W H _ hInv
  push_cast
  omega

/-- Claim C3: for every player position inside a non-wall tile of a
sealed-border `W × H` grid and every ray direction, the DDA step loop of
`renderGame` terminates with a wall hit within at most `W + H`
iterations (`gridWidth + gridHeight` steps). -/
theorem dda_terminates_within_bound (g : ℤ → ℤ → ℤ) (W H : ℕ) (posX posY rdX rdY : ℚ)
    (hsb : sealedBorder g W H)
    (hx0 : 0 ≤ posX) (hxW : posX < (W : ℚ)) (hy0 : 0 ≤ posY) (hyH : posY < (H : ℚ))
    (hopen : g (cint posX) (cint posY) = 0) :
    ∃ t, ddaRun g (W + H) (ddaInit posX posY rdX rdY) = some t :=
  ddaInit_terminates g W H hsb posX posY rdX rdY hx0 hxW hy0 hyH hopen

/-- Witness for `dda_terminates_within_bound`: the `worldMap` grid with
the starting player position (22, 12) of `startNewGame` and the initial
ray direction (-1, 0). -/
theorem dda_terminates_within_bound_witness :
    ∃ t, ddaRun wmap (24 + 24) (ddaInit 22 12 (-1) 0) = some t :=
  dda_terminates_within_bound wmap 24 24 22 12 (-1) 0 (by decide)
    (by norm_num) (by norm_num) (by norm_num) (by norm_num)
    (by with_unfolding_all decide)

/-! ## Zero ray component (C2) -/

/-- An extended double that is neither NaN nor negative infinity. -/
def XQIsNum (x : XQ) : Prop := x ≠ XQ.nan ∧ x ≠ XQ.ninf

theorem add_isNum {a b : XQ} (ha : XQIsNum a) (hb : XQIsNum b) : XQIsNum (XQ.add a b) := by
  cases a <;> cases b <;> simp_all [XQ.add, XQIsNum]

theorem absRecip_isNum (x : ℚ) : XQIsNum (absRecip x) := by
  unfold absRecip XQIsNum
  split_ifs <;> simp

theorem smul_isNum_of_pos {q : ℚ} (hq : 0 < q) {x : XQ} (hx : XQIsNum x) :
    XQIsNum (XQ.smul q x) := by
  cases x <;> simp_all [XQ.smul, XQIsNum, hq]

/-- No field of the DDA state is NaN (or negative infinity). -/
def ddaNN (s : DDAState) : Prop :=
  XQIsNum s.sideDistX ∧ XQIsNum s.sideDistY ∧ XQIsNum s.deltaDistX ∧ XQIsNum s.deltaDistY

theorem ddaStep_NN {s : DDAState} (h : ddaNN s) : ddaNN (ddaStep s) := by
  obtain ⟨h1, h2, h3, h4⟩ := h
  unfold ddaStep
  split_ifs
  · exact ⟨add_isNum h1 h3, h2, h3, h4⟩
  · exact ⟨h1, add_isNum h2 h4, h3, h4⟩

theorem ddaRun_NN (g : ℤ → ℤ → ℤ) :
    ∀ (fuel : ℕ) (s t : DDAState), ddaNN s → ddaRun g fuel s = some t → ddaNN t := by
  intro fuel
  induction fuel with
  | zero => intro s t _ h; cases h
  | succ n ih =>
      intro s t hs h
      simp only [ddaRun] at h
      by_cases hhit : 0 < g (ddaStep s).mapX (ddaStep s).mapY
      · rw [if_pos hhit] at h
        obtain rfl := Option.some_inj.1 h
        exact ddaStep_NN hs
      · rw [if_neg hhit] at h
        exact ih (ddaStep s) t (ddaStep_NN hs) h

theorem blt_inf_left (y : XQ) : XQ.blt XQ.inf y = false := by cases y <;> rfl

theorem ddaStep_infX {s : DDAState} (h : s.sideDistX = XQ.inf) :
    ddaStep s = { s with sideDistY := XQ.add s.sideDistY s.deltaDistY,
                         mapY := s.mapY + s.stepY, side := 1 } := by
  unfold ddaStep
  rw [h, blt_inf_left]
  simp

theorem ddaStep_infX_fields {s : DDAState} (h : s.sideDistX = XQ.inf) :
    (ddaStep s).mapX = s.mapX ∧ (ddaStep s).side = 1 ∧ (ddaStep s).sideDistX = XQ.inf := by
  rw [ddaStep_infX h]
  exact ⟨rfl, rfl, h⟩

/-- If the x side-distance is +inf, the DDA never advances the x axis:
whatever state it returns has the same `mapX`, was produced by a y step
(`side = 1`), and still carries the infinite x side-distance. -/
theorem ddaRun_infX (g : ℤ → ℤ → ℤ) :
    ∀ (fuel : ℕ) (s t : DDAState), s.sideDistX = XQ.inf → ddaRun g fuel s = some t →
      t.mapX = s.mapX ∧ t.side = 1 ∧ t.sideDistX = XQ.inf := by
  intro fuel
  induction fuel with
  | zero => intro s t _ h; cases h
  | succ n ih =>
      intro s t hinf h
      simp only [ddaRun] at h
      obtain ⟨e1, e2, e3⟩ := ddaStep_infX_fields hinf
      by_cases hhit : 0 < g (ddaStep s).mapX (ddaStep s).mapY
      · rw [if_pos hhit] at h
        obtain rfl := Option.some_inj.1 h
        exact ⟨e1, e2, e3⟩
      · rw [if_neg hhit] at h
        obtain ⟨f1, f2, f3⟩ := ih (ddaStep s) t e3 h
        exact ⟨f1.trans e1, f2, f3⟩

theorem ddaInit_zeroX (posX posY rdY : ℚ) (hx0 : 0 ≤ posX) :
    (ddaInit posX posY 0 rdY).deltaDistX = XQ.inf ∧
    (ddaInit posX posY 0 rdY).sideDistX = XQ.inf := by
  have hfrac : 0 < (cint posX : ℚ) + 1 - posX := by
    rw [cint_eq_floor hx0]
    have := Int.lt_floor_add_one posX
    linarith
  have hd : absRecip (0 : ℚ) = XQ.inf := by unfold absRecip; rw [if_pos rfl]
  constructor
  · rw [ddaInit_deltaDistX, hd]
  · rw [ddaInit_sideDistX, if_neg (lt_irrefl (0 : ℚ)), hd]
    simp only [XQ.smul]
    rw [if_pos hfrac]

theorem ddaInit_NN (posX posY rdX rdY : ℚ) (hx0 : 0 ≤ posX) (hy0 : 0 ≤ posY) :
    ddaNN (ddaInit posX posY rdX rdY) := by
  have hfx : 0 < (cint posX : ℚ) + 1 - posX := by
    rw [cint_eq_floor hx0]
    have := Int.lt_floor_add_one posX
    linarith
  have hfy : 0 < (cint posY : ℚ) + 1 - posY := by
    rw [cint_eq_floor hy0]
    have := Int.lt_floor_add_one posY
    linarith
  refine ⟨?_, ?_, ?_, ?_⟩
  · rw [ddaInit_sideDistX]
    split_ifs with h
    · have : absRecip rdX = XQ.fin |1 / rdX| := by unfold absRecip; rw [if_neg (ne_of_lt h)]
      rw [this]
      simp [XQ.smul, XQIsNum]
    · exact smul_isNum_of_pos hfx (absRecip_isNum rdX)
  · rw [ddaInit_sideDistY]
    split_ifs with h
    · have : absRecip rdY = XQ.fin |1 / rdY| := by unfold absRecip; rw [if_neg (ne_of_lt h)]
      rw [this]
      simp [XQ.smul, XQIsNum]
    · exact smul_isNum_of_pos hfy (absRecip_isNum rdY)
  · rw [ddaInit_deltaDistX]; exact absRecip_isNum rdX
  · rw [ddaInit_deltaDistY]; exact absRecip_isNum rdY

theorem blt_fin_inf (a : ℚ) : XQ.blt (XQ.fin a) XQ.inf = true := rfl

theorem ddaStep_infY {s : DDAState} (hY : s.sideDistY = XQ.inf) {a : ℚ}
    (hX : s.sideDistX = XQ.fin a) :
    ddaStep s = { s with sideDistX := XQ.add s.sideDistX s.deltaDistX,
                         mapX := s.mapX + s.stepX, side := 0 } := by
  unfold ddaStep
  rw [hX, hY, blt_fin_inf]
  simp

theorem ddaStep_infY_fields {s : DDAState} (hY : s.sideDistY = XQ.inf) {a b : ℚ}
    (hX : s.sideDistX = XQ.fin a) (hD : s.deltaDistX = XQ.fin b) :
    (ddaStep s).mapY = s.mapY ∧ (ddaStep s).side = 0 ∧ (ddaStep s).sideDistY = XQ.inf ∧
    (ddaStep s).sideDistX = XQ.fin (a + b) ∧ (ddaStep s).deltaDistX = XQ.fin b := by
  rw [ddaStep_infY hY hX]
  refine ⟨rfl, rfl, hY, ?_, hD⟩
  show XQ.add s.sideDistX s.deltaDistX = XQ.fin (a + b)
  rw [hX, hD]
  rfl

/-- If the y side-distance is +inf while the x side-distance and x
delta-distance are finite, the DDA never advances the y axis: the
returned state has the same `mapY`, was produced by an x step
(`side = 0`), and still carries the infinite y side-distance.  (Unlike
the x case this needs the finiteness of `sideDistX`: the tie-break
`sideDistX < sideDistY` advances y on ties, so with both side-distances
infinite the loop would advance y.) -/
theorem ddaRun_infY (g : ℤ → ℤ → ℤ) :
    ∀ (fuel : ℕ) (s t : DDAState), s.sideDistY = XQ.inf →
      (∃ a, s.sideDistX = XQ.fin a) → (∃ b, s.deltaDistX = XQ.fin b) →
      ddaRun g fuel s = some t →
      t.mapY = s.mapY ∧ t.side = 0 ∧ t.sideDistY = XQ.inf := by
  intro fuel
  induction fuel with
  | zero => intro s t _ _ _ h; cases h
  | succ n ih =>
      intro s t hY hX hD h
      obtain ⟨a, hXa⟩ := hX
      obtain ⟨b, hDb⟩ := hD
      obtain ⟨e1, e2, e3, e4, e5⟩ := ddaStep_infY_fields hY hXa hDb
      simp only [ddaRun] at h
      by_cases hhit : 0 < g (ddaStep s).mapX (ddaStep s).mapY
      · rw [if_pos hhit] at h
        obtain rfl := Option.some_inj.1 h
        exact ⟨e1, e2, e3⟩
      · rw [if_neg hhit] at h
        obtain ⟨f1, f2, f3⟩ := ih (ddaStep s) t e3 ⟨a + b, e4⟩ ⟨b, e5⟩ h
        exact ⟨f1.trans e1, f2, f3⟩

theorem ddaInit_zeroY (posX posY rdX : ℚ) (hy0 : 0 ≤ posY) :
    (ddaInit posX posY rdX 0).deltaDistY = XQ.inf ∧
    (ddaInit posX posY rdX 0).sideDistY = XQ.inf := by
  have hfrac : 0 < (cint posY : ℚ) + 1 - posY := by
    rw [cint_eq_floor hy0]
    have := Int.lt_floor_add_one posY
    linarith
  have hd : absRecip (0 : ℚ) = XQ.inf := by unfold absRecip; rw [if_pos rfl]
  constructor
  · rw [ddaInit_deltaDistY, hd]
  · rw [ddaInit_sideDistY, if_neg (lt_irrefl (0 : ℚ)), hd]
    simp only [XQ.smul]
    rw [if_pos hfrac]

theorem ddaInit_finX (posX posY rdX rdY : ℚ) (hrdX : rdX ≠ 0) :
    (∃ a, (ddaInit posX posY rdX rdY).sideDistX = XQ.fin a) ∧
    (∃ b, (ddaInit posX posY rdX rdY).deltaDistX = XQ.fin b) := by
  have hd : absRecip rdX = XQ.fin |1 / rdX| := by unfold absRecip; rw [if_neg hrdX]
  constructor
  · rw [ddaInit_sideDistX, hd]
    split_ifs
    · exact ⟨_, rfl⟩
    · exact ⟨_, rfl⟩
  · rw [ddaInit_deltaDistX, hd]
    exact ⟨_, rfl⟩

/-- Claim C2: for the axis whose ray component is exactly zero, the
unguarded `deltaDist = abs(1/rayComponent)` evaluates to IEEE +inf —
not NaN — and the initial side-distance of that axis is +inf — not NaN,
since its positive factor `map + 1 - pos` cannot be zero; no field of
the DDA state is ever NaN (`ddaNN` holds initially and for the returned
state), the step loop still terminates within `W + H` iterations, and
the zero axis is never the one advanced: the final tile keeps that
axis's initial coordinate and was reached by a step of the other axis.
The x-zero case (first conjunct) holds for every `rayDirY`, because
`sideDistX = +inf` loses every `sideDistX < sideDistY` comparison.  The
y-zero case (second conjunct) needs `rayDirX ≠ 0`: the comparison
advances y on ties, so with both components zero the code advances y —
there is then no single "axis whose component is zero". -/
theorem dda_zero_ray_component (g : ℤ → ℤ → ℤ) (W H : ℕ) (posX posY : ℚ)
    (hsb : sealedBorder g W H)
    (hx0 : 0 ≤ posX) (hxW : posX < (W : ℚ)) (hy0 : 0 ≤ posY) (hyH : posY < (H : ℚ))
    (hopen : g (cint posX) (cint posY) = 0) :
    (∀ rdY : ℚ,
      (ddaInit posX posY 0 rdY).deltaDistX = XQ.inf ∧
      (ddaInit posX posY 0 rdY).sideDistX = XQ.inf ∧
      ddaNN (ddaInit posX posY 0 rdY) ∧
      ∃ t, ddaRun g (W + H) (ddaInit posX posY 0 rdY) = some t ∧
        t.mapX = (ddaInit posX posY 0 rdY).mapX ∧ t.side = 1 ∧ ddaNN t) ∧
    (∀ rdX : ℚ, rdX ≠ 0 →
      (ddaInit posX posY rdX 0).deltaDistY = XQ.inf ∧
      (ddaInit posX posY rdX 0).sideDistY = XQ.inf ∧
      ddaNN (ddaInit posX posY rdX 0) ∧
      ∃ t, ddaRun g (W + H) (ddaInit posX posY rdX 0) = some t ∧
        t.mapY = (ddaInit posX posY rdX 0).mapY ∧ t.side = 0 ∧ ddaNN t) := by
  constructor
  · intro rdY
    obtain ⟨hd, hs⟩ := ddaInit_zeroX posX posY rdY hx0
    have hNN := ddaInit_NN posX posY 0 rdY hx0 hy0
    obtain ⟨t, ht⟩ := ddaInit_terminates g W H hsb posX posY 0 rdY hx0 hxW hy0 hyH hopen
    obtain ⟨f1, f2, _⟩ := ddaRun_infX g (W + H) _ t hs ht
    exact ⟨hd, hs, hNN, t, ht, f1, f2, ddaRun_NN g (W + H) _ t hNN ht⟩
  · intro rdX hrdX
    obtain ⟨hd, hs⟩ := ddaInit_zeroY posX posY rdX hy0
    obtain ⟨hXfin, hDfin⟩ := ddaInit_finX posX posY rdX 0 hrdX
    have hNN := ddaInit_NN posX posY rdX 0 hx0 hy0
    obtain ⟨t, ht⟩ := ddaInit_terminates g W H hsb posX posY rdX 0 hx0 hxW hy0 hyH hopen
    obtain ⟨f1, f2, _⟩ := ddaRun_infY g (W + H) _ t hs hXfin hDfin ht
    exact ⟨hd, hs, hNN, t, ht, f1, f2, ddaRun_NN g (W + H) _ t hNN ht⟩

/-- Witness for `dda_zero_ray_component` on `worldMap` at the start
position (22, 12): the x-zero case with ray direction (0, 1), and the
y-zero case with ray direction (-1, 0) — the center-column ray of the
initial pose, whose y component is exactly zero. -/
theorem dda_zero_ray_component_witness :
    ((ddaInit 22 12 0 1).deltaDistX = XQ.inf ∧
     (ddaInit 22 12 0 1).sideDistX = XQ.inf ∧
     ddaNN (ddaInit 22 12 0 1) ∧
     ∃ t, ddaRun wmap (24 + 24) (ddaInit 22 12 0 1) = some t ∧
       t.mapX = (ddaInit 22 12 0 1).mapX ∧ t.side = 1 ∧ ddaNN t) ∧
    ((ddaInit 22 12 (-1) 0).deltaDistY = XQ.inf ∧
     (ddaInit 22 12 (-1) 0).sideDistY = XQ.inf ∧
     ddaNN (ddaInit 22 12 (-1) 0) ∧
     ∃ t, ddaRun wmap (24 + 24) (ddaInit 22 12 (-1) 0) = some t ∧
       t.mapY = (ddaInit 22 12 (-1) 0).mapY ∧ t.side = 0 ∧ ddaNN t) :=
  ⟨(dda_zero_ray_component wmap 24 24 22 12 (by decide) (by norm_num) (by norm_num)
      (by norm_num) (by norm_num) (by with_unfolding_all decide)).1 1,
   (dda_zero_ray_component wmap 24 24 22 12 (by decide) (by norm_num) (by norm_num)
      (by norm_num) (by norm_num) (by with_unfolding_all decide)).2 (-1) (by norm_num)⟩
